import Mathlib

/-!
Verification of the tcia_downloader pipeline: a shallow embedding of the
manifest parsing, download, metadata extraction, path building, safe
placement, series grouping/filtering and slice-ordering code, with proofs
about each embedded operation.

Python strings are modelled as `List Char`; Python dicts as association
lists or as functions to `Option` values where only lookup semantics
matter; filesystem state as explicit maps from paths to entry states.
-/

set_option maxHeartbeats 1000000

namespace Tcia

/-! ## `utils.get_valid_filepath` (tcia_downloader/utils.py lines 14-33)

`s = str(s).strip().replace(" ", "_").replace(".", "_")` followed by
`re.sub(r"(?u)[^-\w.]", "", s)`. -/

/-- Python `str.strip()`: removes leading and trailing whitespace.
(Python also strips some further Unicode whitespace characters; all of
those are removed by the final regex substitution anyway, so the ASCII
whitespace set is used here.) -/
def pyStrip (l : List Char) : List Char :=
  ((l.dropWhile Char.isWhitespace).reverse.dropWhile Char.isWhitespace).reverse

/-- Python `str.replace(a, b)` for single characters. -/
def pyReplaceChar (a b : Char) (l : List Char) : List Char :=
  l.map (fun c => if c = a then b else c)

/-- Python `\w` with the unicode flag: letters, digits and underscore
(here restricted to ASCII alphanumerics). -/
def isWordChar (c : Char) : Bool :=
  c.isAlphanum || c = '_'

/-- The character class kept by `re.sub(r"(?u)[^-\w.]", "", s)`:
word characters, hyphen and dot survive, everything else is deleted. -/
def keptByRegex (c : Char) : Bool :=
  isWordChar c || c = '-' || c = '.'

/-- Embedding of `utils.get_valid_filepath`: strip, replace spaces and dots with
underscores, then delete every character outside `[-\w.]`. -/
def get_valid_filepath (s : List Char) : List Char :=
  (pyReplaceChar '.' '_' (pyReplaceChar ' ' '_' (pyStrip s))).filter keptByRegex

/-! ## `image_io.metadata_to_dcm_filepath` (tcia_downloader/image_io.py lines 105-136)

The nine tag values drawn from the metadata dict are modelled as a record;
the produced `pathlib.Path` is modelled as its list of segments. -/

/-- The nine metadata values indexed by the tag list in
`metadata_to_dcm_filepath` (patient name, patient ID, study date, study
description, study instance UID, modality, series description, series
instance UID, instance number). -/
structure DcmMeta where
  patientName : List Char
  patientID : List Char
  studyDate : List Char
  studyDesc : List Char
  studyUID : List Char
  modality : List Char
  seriesDesc : List Char
  seriesUID : List Char
  instanceNumber : List Char
  deriving DecidableEq, Repr

/-- Python `"_".join` of two pieces. -/
def joinUnderscore (a b : List Char) : List Char :=
  a ++ '_' :: b

/-- The patient segment: `"_".join(pieces[:2])`. -/
def patientSeg (m : DcmMeta) : List Char :=
  joinUnderscore (get_valid_filepath m.patientName) (get_valid_filepath m.patientID)

/-- The study segment: `"_".join(pieces[2:4])`. -/
def studySeg (m : DcmMeta) : List Char :=
  joinUnderscore (get_valid_filepath m.studyDate) (get_valid_filepath m.studyDesc)

/-- The series segment: `"_".join(pieces[5:7])`, i.e. the sanitized
modality and series description; the study UID (`pieces[4]`) and the
series UID (`pieces[7]`) are never used. -/
def seriesSeg (m : DcmMeta) : List Char :=
  joinUnderscore (get_valid_filepath m.modality) (get_valid_filepath m.seriesDesc)

/-- The filename: `f"{instance}.dcm"` with `instance = pieces[8]`. -/
def instFileSeg (m : DcmMeta) : List Char :=
  get_valid_filepath m.instanceNumber ++ ('.' :: ['d', 'c', 'm'])

/-- Embedding of `metadata_to_dcm_filepath`: the path
`patient / study / series / instance.dcm` as its four segments. -/
def metadata_to_dcm_filepath (m : DcmMeta) : List (List Char) :=
  [patientSeg m, studySeg m, seriesSeg m, instFileSeg m]

/-! ## C4: determinism and (non-)injectivity of the path builder -/

/-- Two metadata records identical except for the series instance UID:
`metadata_to_dcm_filepath` never reads the series UID (`pieces[7]`), so
they map to the same path. -/
def m4a : DcmMeta :=
  ⟨"John Doe".toList, "123".toList, "20200101".toList, "CHEST".toList,
    "1.2.3.4".toList, "CT".toList, "desc".toList, "1.2.3.4.5".toList, "7".toList⟩

/-- Same as `m4a` except for the series instance UID. -/
def m4b : DcmMeta := { m4a with seriesUID := "9.9.9".toList }

/-- Same as `m4a` except for the instance number (used by the path). -/
def m4c : DcmMeta := { m4a with instanceNumber := "8".toList }

/-! ## Manifest parsing: `utils.drop_until` (utils.py lines 66-87) and
`file_parser.get_series_to_dl` (file_parser.py lines 10-28) -/

/-- Python `line.rstrip("\n")` (also `utils.remove_trailing_n`): removes
every trailing newline character. -/
def remove_trailing_n (l : List Char) : List Char :=
  (l.reverse.dropWhile (fun c => c = '\n')).reverse

/-- The sentinel marker `ListOfSeriesToDownload=` (`TAKE_AFTER` in main.py,
`start_line` in file_parser.py). -/
def sentinelLine : List Char := "ListOfSeriesToDownload=".toList

/-- Embedding of `utils.drop_until`: the first loop consumes items until the predicate
fires (that item is dropped too); the second loop yields everything that
remains, so the result is empty when the predicate never fires. -/
def drop_until {α : Type} (p : α → Bool) : List α → List α
  | [] => []
  | x :: xs => if p x then xs else drop_until p xs

/-- The `while` loop of `file_parser.get_series_to_dl` with its `start`
flag: a line equal to the sentinel (after stripping the newline) sets the
flag and is never yielded — even when the flag is already set; any other
line is yielded exactly when the flag is set. -/
def get_series_aux (start : Bool) : List (List Char) → List (List Char)
  | [] => []
  | l :: ls =>
    if remove_trailing_n l = sentinelLine then get_series_aux true ls
    else if start then remove_trailing_n l :: get_series_aux true ls
    else get_series_aux false ls

/-- Embedding of `file_parser.get_series_to_dl` on the raw lines of the manifest. -/
def get_series_to_dl (lines : List (List Char)) : List (List Char) :=
  get_series_aux false lines

/-- The manifest parsing of the pipeline driver (main.py lines 563-565):
`remove_trailing_n` over the line stream, then
`drop_until(lambda x: x == TAKE_AFTER, lines)`. -/
def pipeline_series_ids (lines : List (List Char)) : List (List Char) :=
  drop_until (fun x => x == sentinelLine) (lines.map remove_trailing_n)

/-- What the spec describes as the parsed sequence: all (newline-stripped)
lines strictly after the first occurrence of the sentinel line, empty when
the sentinel does not occur. -/
def linesAfterSentinel (lines : List (List Char)) : List (List Char) :=
  ((lines.map remove_trailing_n).dropWhile (fun x => x != sentinelLine)).drop 1

/-- A manifest whose sentinel line occurs twice. -/
def manifestTwoSentinels : List (List Char) :=
  ["ListOfSeriesToDownload=\n".toList, "A\n".toList,
    "ListOfSeriesToDownload=\n".toList, "B".toList]

/-- A well-formed manifest: header lines, one sentinel, then identifiers. -/
def manifestPlain : List (List Char) :=
  ["key=value\n".toList, "ListOfSeriesToDownload=\n".toList,
    "S1\n".toList, "S2".toList]

/-! ## Filesystem model and `file_io.mkdir_safe` (file_io.py lines 77-110) /
`file_io.ensure` (file_io.py lines 138-155) -/

/-- What a filesystem path can currently be. -/
inductive Entry
  | absent
  | emptyDir
  | nonEmptyDir
  | file
  deriving DecidableEq, Repr

/-- A path, as its list of segments. -/
abbrev FsPath := List String

/-- Filesystem state: what each path currently is. -/
def Fs := FsPath → Entry

/-- The errors the directory primitives can raise: `FileExistsError`,
`FileNotFoundError`, `NotADirectoryError` (from `iterdir` on a file) and
`file_io.DirectoryNotEmptyError`. -/
inductive FsError
  | fileExists
  | fileNotFound
  | notADirectory
  | directoryNotEmpty
  deriving DecidableEq, Repr

/-- Point update of a filesystem state. -/
def fsUpdate (fs : Fs) (p : FsPath) (e : Entry) : Fs :=
  fun q => if q = p then e else fs q

/-- Python `path.mkdir()` (no `parents`, no `exist_ok`): `FileExistsError` if the
path exists in any form, `FileNotFoundError` if the parent is missing,
`NotADirectoryError` if the parent is a file; otherwise creates the
directory (and the parent gains a child). -/
def mkdirRaw (fs : Fs) (p : FsPath) : Except FsError Fs :=
  if fs p ≠ Entry.absent then Except.error FsError.fileExists
  else
    match fs p.dropLast with
    | Entry.emptyDir => Except.ok (fsUpdate (fsUpdate fs p Entry.emptyDir) p.dropLast Entry.nonEmptyDir)
    | Entry.nonEmptyDir => Except.ok (fsUpdate (fsUpdate fs p Entry.emptyDir) p.dropLast Entry.nonEmptyDir)
    | Entry.file => Except.error FsError.notADirectory
    | Entry.absent => Except.error FsError.fileNotFound

/-- Python `path.mkdir(exist_ok=True)`: as `mkdir` but an existing directory is
accepted unchanged (an existing file still raises `FileExistsError`). -/
def mkdirExistOk (fs : Fs) (p : FsPath) : Except FsError Fs :=
  match fs p with
  | Entry.emptyDir => Except.ok fs
  | Entry.nonEmptyDir => Except.ok fs
  | Entry.file => Except.error FsError.fileExists
  | Entry.absent => mkdirRaw fs p

/-- Embedding of `file_io.is_empty`: `not any(directory.iterdir())`; `iterdir` fails on
a missing path or on a file. -/
def is_empty (fs : Fs) (p : FsPath) : Except FsError Bool :=
  match fs p with
  | Entry.emptyDir => Except.ok true
  | Entry.nonEmptyDir => Except.ok false
  | Entry.file => Except.error FsError.notADirectory
  | Entry.absent => Except.error FsError.fileNotFound

/-- Embedding of `file_io.mkdir_safe`: try `path.mkdir()`; on `FileExistsError` (the
only caught exception) check emptiness — an existing empty directory is
re-`mkdir`-ed with `exist_ok=True` and returned, a non-empty one raises
`DirectoryNotEmptyError`; every other error propagates. -/
def mkdir_safe (fs : Fs) (p : FsPath) : Except FsError (FsPath × Fs) :=
  match mkdirRaw fs p with
  | Except.ok fs2 => Except.ok (p, fs2)
  | Except.error FsError.fileExists =>
    match is_empty fs p with
    | Except.ok true =>
      match mkdirExistOk fs p with
      | Except.ok fs2 => Except.ok (p, fs2)
      | Except.error e => Except.error e
    | Except.ok false => Except.error FsError.directoryNotEmpty
    | Except.error e => Except.error e
  | Except.error e => Except.error e

/-- Python `path.parent.mkdir(parents=True, exist_ok=True)`: creates every
missing ancestor; an existing directory anywhere on the chain is fine, an
existing file raises `FileExistsError`. -/
def mkdirParents (fs : Fs) (p : FsPath) : Except FsError Fs :=
  match fs p with
  | Entry.file => Except.error FsError.fileExists
  | Entry.emptyDir => Except.ok fs
  | Entry.nonEmptyDir => Except.ok fs
  | Entry.absent =>
    if hp : p = [] then Except.ok (fsUpdate fs [] Entry.emptyDir)
    else
      match mkdirParents fs p.dropLast with
      | Except.error e => Except.error e
      | Except.ok fs2 =>
        Except.ok (fsUpdate (fsUpdate fs2 p Entry.emptyDir) p.dropLast Entry.nonEmptyDir)
termination_by p.length
decreasing_by
  rw [List.length_dropLast]
  exact Nat.sub_lt (List.length_pos.mpr hp) Nat.one_pos

/-- Embedding of `file_io.ensure`: create the parent chain of the path if
missing, return the path itself. -/
def ensure (fs : Fs) (p : FsPath) : Except FsError (FsPath × Fs) :=
  match mkdirParents fs p.dropLast with
  | Except.ok fs2 => Except.ok (p, fs2)
  | Except.error e => Except.error e

/-- A tiny concrete filesystem: a root directory containing `out`, which
is empty. -/
def fs9 : Fs := fun q =>
  if q = ["out"] then Entry.emptyDir
  else if q = [] then Entry.nonEmptyDir
  else Entry.absent

/-! ## `download.tcia_downloader` (tcia_downloader/download.py lines 16-52) -/

/-- An HTTP response, reduced to what the function inspects:
whether `raise_for_status()` passes, the payload type declared by the
JSON-encoded `metadata` header (`metadata["Result"]["Type"][0]`), and the
streamed body chunks (`iter_content(chunk_size=8192)`). -/
structure TciaResponse where
  statusOk : Bool
  declaredType : String
  chunks : List (List Nat)
  deriving DecidableEq, Repr

/-- The download errors: `requests.HTTPError` from `raise_for_status` and
the `ValueError("Supplied seriesID is not valid. No .zip file here",
seriesID)` raised on a payload-type mismatch. -/
inductive DlError
  | transport
  | invalidSeries (seriesID : String)
  deriving DecidableEq, Repr

/-- A `tempfile.NamedTemporaryFile`, reduced to its written content. -/
structure Blob where
  content : List Nat
  deriving DecidableEq, Repr

/-- Embedding of `download.tcia_downloader`: allocates the temporary file
FIRST, then checks the status, then the declared payload type, and only
then streams the body (skipping empty keep-alive chunks). Returns its
result together with the list of temporary blobs still allocated when the
call ends — the temporary file is never closed on any path, so it appears
in that list whether the call succeeds or raises. -/
def tcia_downloader (seriesID : String) (r : TciaResponse) :
    Except DlError (Blob × String) × List Blob :=
  let tmp0 : Blob := ⟨[]⟩
  if ¬ r.statusOk then (Except.error DlError.transport, [tmp0])
  else if r.declaredType ≠ "ZIP" then (Except.error (DlError.invalidSeries seriesID), [tmp0])
  else
    let written := r.chunks.foldl (fun b c => if c.isEmpty then b else ⟨b.content ++ c⟩) tmp0
    (Except.ok (written, seriesID), [written])

/-- A 2xx response declaring payload type `OTHER`. -/
def respOther : TciaResponse := ⟨true, "OTHER", [[1, 2, 3]]⟩

/-! ## `main.mv_dcm` (main.py lines 258-283) and
`main.classify_and_convert_dcm` (main.py lines 414-439) -/

/-- A destination path: the segments of the base folder followed by the four
segments computed by `metadata_to_dcm_filepath`. -/
abbrev DestPath := List (List Char)

/-- The set of destination paths that currently exist on disk, as a list. -/
abbrev DestFs := List DestPath

/-- Embedding of `main.mv_dcm`: compute
`base_folder / metadata_to_dcm_filepath(metadata)`;
if it already exists raise `FileExistsError` (carrying the destination),
otherwise move the file there (`ensure` creates the parents, which the
path list represents implicitly; removal of the staged source is not
tracked — only destinations matter to collisions). -/
def mv_dcm (st : DestFs) (m : DcmMeta) (base : DestPath) : Except DestPath DestFs :=
  let newPath := base ++ metadata_to_dcm_filepath m
  if newPath ∈ st then Except.error newPath
  else Except.ok (st ++ [newPath])

/-- The inner `for m_data in metadatas: mv_dcm(m_data, dcm_folder)` loop of
`classify_and_convert_dcm`. There is no `try`/`except`: the first
`FileExistsError` propagates, so the loop stops at the first collision and
the remaining metadata records are never placed. Returns the state reached
together with the uncaught collision, if any. -/
def mv_dcm_loop (base : DestPath) (st : DestFs) :
    List DcmMeta → DestFs × Option DestPath
  | [] => (st, none)
  | m :: ms =>
    match mv_dcm st m base with
    | Except.ok st2 => mv_dcm_loop base st2 ms
    | Except.error p => (st, some p)

/-- The outer `for dcm_dir in tmp_dirs` loop of
`main.classify_and_convert_dcm`, restricted to the `.dcm` placement it
performs per directory (the `.nii` conversion step writes elsewhere and
does not touch the `.dcm` destination tree). An exception raised by
`mv_dcm` is not caught here either, so it also aborts every remaining
directory. -/
def classify_and_convert_dcm (base : DestPath) (st : DestFs) :
    List (List DcmMeta) → DestFs × Option DestPath
  | [] => (st, none)
  | d :: ds =>
    match mv_dcm_loop base st d with
    | (st2, some p) => (st2, some p)
    | (st2, none) => classify_and_convert_dcm base st2 ds

/-- Metadata for the two slices of the C5 scenario. -/
def m5a : DcmMeta :=
  ⟨"Jane Roe".toList, "77".toList, "20210101".toList, "HEAD".toList,
    "1.1".toList, "MR".toList, "t1".toList, "2.2".toList, "1".toList⟩

/-- Second slice of the same series (different instance number). -/
def m5b : DcmMeta := { m5a with instanceNumber := "2".toList }

/-- The destination root of the C5 scenario. -/
def base5 : DestPath := ["dcm".toList]

/-- A destination tree in which the destination of `m5a` already exists. -/
def st5 : DestFs := [base5 ++ metadata_to_dcm_filepath m5a]

/-! ## `image_io.extract_dcm_metadata` (tcia_downloader/image_io.py lines 64-102)

The 26-entry `data_elements` tag table, the defaulting merge
`{**default_elements_machine, **metadata}`, and the
`except RuntimeError: return None` branch. Python dicts are modelled by
their lookup function `String → Option String`. -/

/-- The `data_elements` table: the 26 recognized (tag, name) pairs. -/
def data_elements : List (String × String) :=
  [("0008|0020", "Study Date"),
   ("0008|0030", "Study Time"),
   ("0008|1030", "Study Description"),
   ("0020|000d", "Study Instance UID"),
   ("0008|0021", "Series Date"),
   ("0008|0031", "Series Time"),
   ("0008|103e", "Series Description"),
   ("0020|000e", "Series Instance UID"),
   ("0020|0013", "Instance Number"),
   ("0020|1041", "Slice Location"),
   ("0054|0081", "Number of Slices"),
   ("0018|0010", "Contrast/Bolus Agent"),
   ("0010|0010", "Patient Name"),
   ("0010|0020", "Patient ID"),
   ("0010|0030", "Patient Birth Date"),
   ("0010|0040", "Patient Sex"),
   ("0010|1010", "Patient Age"),
   ("0010|1020", "Patient Size"),
   ("0010|1030", "Patient Weight"),
   ("0008|0080", "Institution Name"),
   ("0008|0018", "SOP Instance UID"),
   ("0008|0032", "Acquisition Time"),
   ("0008|0060", "Modality"),
   ("0008|0008", "Image Type"),
   ("0008|0070", "Manufacturer"),
   ("0008|1090", "Manufacturer Model Name")]

/-- The recognized tags, i.e. the keys of `data_elements_machine`. -/
def dicomTagKeys : List String := data_elements.map Prod.fst

/-- Python `default_elements_machine`, the dict holding `"Unknown"` under
every recognized tag, as a lookup function. -/
def default_elements_machine : String → Option String :=
  fun k => if k ∈ dicomTagKeys then some "Unknown" else none

/-- Embedding of `image_io.extract_dcm_metadata`. Inputs: whether the path
exists, the path itself, whether `reader.ReadImageInformation()` succeeds
(it raises `RuntimeError` on a file that is not valid DICOM), and the tag
lookup of the header (`HasMetaDataKey`/`GetMetaData`). A missing path raises
`FileNotFoundError` (the `Except.error` case); an unreadable header is
caught, logged and turned into `return None`; otherwise the dict
comprehension over the 26 recognized tags, the `file` entry, and the
defaulting merge `{**default_elements_machine, **metadata}` produce the
returned mapping. -/
def extract_dcm_metadata (fileExistsB : Bool) (filename : String)
    (readOk : Bool) (header : String → Option String) :
    Except Unit (Option (String → Option String)) :=
  if ¬ fileExistsB then Except.error ()
  else if readOk then
    let metadata : String → Option String :=
      fun k => if k ∈ dicomTagKeys then header k else none
    let metadata2 : String → Option String :=
      fun k => if k = "file" then some filename else metadata k
    let merged : String → Option String :=
      fun k => (metadata2 k).orElse (fun _ => default_elements_machine k)
    Except.ok (some merged)
  else Except.ok none

/-! ## `conv2nii.group_by_correct_volumes` (src/conv2nii.py lines 10-26) -/

/-- The flat metadata dict of one slice, reduced to the keys the ordering code
reads (`AcquisitionNumber`, `InstanceNumber`), the derived z-location, and
an identifier to tell slices apart. -/
structure SliceMeta where
  acquisitionNumber : Int
  instanceNumber : Int
  zLocation : Int
  sopInstanceUID : String
  deriving DecidableEq, Repr

/-- Insert into an already-sorted list, after every element that compares
less-or-equal — the placement the stable Python `sorted` gives an element
relative to earlier equal-key elements. -/
def insertSortedBy {α : Type} (le : α → α → Bool) (x : α) : List α → List α
  | [] => [x]
  | y :: ys => if le y x then y :: insertSortedBy le x ys else x :: y :: ys

/-- Stable sort (insertion sort), matching Python `sorted(l, key=...)`
for a total preorder. -/
def stableSortBy {α : Type} (le : α → α → Bool) (l : List α) : List α :=
  l.foldl (fun acc x => insertSortedBy le x acc) []

/-- The comparison induced by
`operator.itemgetter("AcquisitionNumber", "InstanceNumber")`:
lexicographic on the (acquisition number, instance number) pair. -/
def leAcqInst (a b : SliceMeta) : Bool :=
  (a.acquisitionNumber < b.acquisitionNumber) ||
    (a.acquisitionNumber == b.acquisitionNumber && a.instanceNumber ≤ b.instanceNumber)

/-- The comparison the spec prescribes for ordering (2): derived
z-location ascending. -/
def leZloc (a b : SliceMeta) : Bool :=
  a.zLocation ≤ b.zLocation

/-- What one call of `group_by_correct_volumes` computes: its two local
sorted lists, whether the discrepancy message is printed, and its return
value. -/
structure GroupVolumesRun where
  by_inst_nb : List SliceMeta
  by_zloc : List SliceMeta
  discrepancyLogged : Bool
  returned : Option (List SliceMeta)
  deriving DecidableEq, Repr

/-- Embedding of `conv2nii.group_by_correct_volumes`, line by line:
`new_by_inst_nb` is sorted by (AcquisitionNumber, InstanceNumber);
`new_by_zloc` is sorted by the SAME itemgetter key — not by z-location;
the guard is `if not new_by_zloc == new_by_zloc`, which compares the list
with itself and so never fires; and the function body has no `return`
statement, so it returns `None`. -/
def group_by_correct_volumes (slices_mdatas : List SliceMeta) : GroupVolumesRun :=
  let new_by_inst_nb := stableSortBy leAcqInst slices_mdatas
  let new_by_zloc := stableSortBy leAcqInst slices_mdatas
  { by_inst_nb := new_by_inst_nb
    by_zloc := new_by_zloc
    discrepancyLogged := decide (¬ new_by_zloc = new_by_zloc)
    returned := none }

/-- Two slices of one acquisition whose instance-number order is the
reverse of their z-location order. -/
def slice1 : SliceMeta := ⟨1, 1, 50, "A"⟩

/-- See `slice1`: lower instance number would sort first, but its
z-location is higher. -/
def slice2 : SliceMeta := ⟨1, 2, 10, "B"⟩

/-! ## `create_csv_db.dicom_dataset_to_flat_dict` (src/create_csv_db.py lines 26-44) -/

/-- A converted DICOM element value (after `_convert_value`): the claim
only needs numbers, strings and numeric lists such as
`ImagePositionPatient`. -/
inductive DcmValue
  | intV (n : Int)
  | strV (s : List Char)
  | numListV (l : List Int)
  deriving DecidableEq, Repr

/-- One element of a (flat) DICOM header: its keyword, its value, and
whether its tag is the pixel-data tag `(0x7fe0, 0x0010)`. (The nested
`Dataset`/`Sequence` branches of the source are not exercised by flat
headers and are not modelled.) -/
structure DcmElement where
  keyword : String
  value : DcmValue
  isPixelData : Bool
  deriving DecidableEq, Repr

/-- Ordered Python-dict insert on an association list: overwrite in place
when the key exists, append otherwise. -/
def pyDictInsert {β : Type} (d : List (String × β)) (k : String) (v : β) :
    List (String × β) :=
  if d.any (fun kv => kv.1 = k) then
    d.map (fun kv => if kv.1 = k then (k, v) else kv)
  else d ++ [(k, v)]

/-- Embedding of `_sanitise_unicode`: drop NUL characters, `strip()`, then
`rstrip("\n")` (a no-op after `strip`, mirrored anyway). -/
def sanitiseUnicode (s : List Char) : List Char :=
  let s1 := pyStrip (s.filter (fun c => c ≠ '\x00'))
  (s1.reverse.dropWhile (fun c => c = '\n')).reverse

/-- Embedding of `_convert_value`: numbers and lists pass through, strings are
sanitised (the `DSfloat`/`IS`/`PersonName`/date branches coerce to the
value kinds already modelled). -/
def convert_value : DcmValue → DcmValue
  | DcmValue.strV s => DcmValue.strV (sanitiseUnicode s)
  | v => v

/-- The Python expression `hasattr(dicom_dict, "ImagePositionPatient")`
where `dicom_dict` is a plain `dict`: a `dict` instance never has an
attribute of that name (attribute lookup is unrelated to the keys of the dict),
so the expression is `False` for every header. -/
def dictHasAttrImagePositionPatient : Bool := false

/-- The value the dead branch would store:
`dicom_header.ImagePositionPatient[-1]`. -/
def ippLastCoord (header : List DcmElement) : Int :=
  match header.find? (fun el => el.keyword = "ImagePositionPatient") with
  | some el =>
    match el.value with
    | DcmValue.numListV l => l.getLast!
    | _ => 0
  | none => 0

/-- Embedding of `create_csv_db.dicom_dataset_to_flat_dict` on a flat header: the loop
skips the pixel-data element (`continue`), stores every other converted
value under its keyword, and after each stored element evaluates
`if hasattr(dicom_dict, "ImagePositionPatient")` — the check that was
meant to add the derived `z_location` entry; `flatten` of an already-flat
dict is the dict itself. -/
def dicom_dataset_to_flat_dict (header : List DcmElement) :
    List (String × DcmValue) :=
  header.foldl
    (fun d el =>
      if el.isPixelData then d
      else
        let d2 := pyDictInsert d el.keyword (convert_value el.value)
        if dictHasAttrImagePositionPatient then
          pyDictInsert d2 "z_location" (DcmValue.intV (ippLastCoord header))
        else d2)
    []

/-- A header that carries the 3D position field. -/
def headerWithIpp : List DcmElement :=
  [⟨"PatientName", DcmValue.strV "Doe".toList, false⟩,
   ⟨"ImagePositionPatient", DcmValue.numListV [0, 0, 42], false⟩,
   ⟨"PixelData", DcmValue.intV 0, true⟩]

/-! ## `create_csv_db.merge_series` (src/create_csv_db.py lines 95-101) and
`create_csv_db.extract_dcm_metadata_to_csv` (lines 104-120) -/

/-- A flat per-file metadata dict (string keys and values). -/
abbrev MetaD := List (String × String)

/-- The grouping key `metas["SeriesInstanceUID"]` (as an `Option`, so
that the embedding is total; inputs produced by the extractor carry the
key). -/
def seriesKey (m : MetaD) : Option String := m.lookup "SeriesInstanceUID"

/-- One step of `merge_series`:
`result[metas["SeriesInstanceUID"]].append(metas)` on an
insertion-ordered `defaultdict(list)` — append to the group with the same
key if one exists, otherwise open a new group at the end. -/
def addToSeries (acc : List (Option String × List MetaD)) (m : MetaD) :
    List (Option String × List MetaD) :=
  if acc.any (fun g => g.1 = seriesKey m) then
    acc.map (fun g => if g.1 = seriesKey m then (g.1, g.2 ++ [m]) else g)
  else acc ++ [(seriesKey m, [m])]

/-- Embedding of `create_csv_db.merge_series`: group the records by series UID; groups
are ordered by first appearance and keep their members in input order. -/
def merge_series (list_of_metas : List MetaD) : List (Option String × List MetaD) :=
  list_of_metas.foldl addToSeries []

/-- The record-list core of `extract_dcm_metadata_to_csv` between reading
the files and writing the CSV: the optional slice-level filter applied to
individual records BEFORE grouping, then `merge_series`, then the
series-level loop that `continue`s over an entire small group and
`extend`s each surviving group into the final flat list. `keep_slice` and
`small_series` are imported from `src.filters`, a module not present in
the tree, so they are parameters here; every statement below holds for
all choices of them. -/
def extract_dcm_metadata_to_csv (keep_slice : MetaD → Bool)
    (small_series : List MetaD → Bool) (filter_slice filter_series : Bool)
    (l : List MetaD) : List MetaD :=
  let l1 := if filter_slice then l.filter keep_slice else l
  (merge_series l1).foldl
    (fun acc g => if filter_series && small_series g.2 then acc else acc ++ g.2) []

/-- The structural invariants `merge_series` guarantees: distinct group
keys, every member carries the key of its group, and no group is empty. -/
def goodGroups (gs : List (Option String × List MetaD)) : Prop :=
  (gs.map Prod.fst).Nodup ∧
    (∀ g ∈ gs, ∀ m ∈ g.2, seriesKey m = g.1) ∧ ∀ g ∈ gs, g.2 ≠ []

/-! ## Theorems -/

/-! ## Lemmas about the sanitizer -/

theorem kept_not_whitespace (c : Char) (h : keptByRegex c = true) :
    c.isWhitespace = false := by
  cases hw : c.isWhitespace with
  | false => rfl
  | true =>
    have hd : ((c = ' ' ∨ c = '\t') ∨ c = '\r') ∨ c = '\n' := by
      simpa [Char.isWhitespace] using hw
    rcases hd with ((h1 | h1) | h1) | h1 <;> subst h1 <;> revert h <;> decide

theorem mem_pyReplaceChar {a b c : Char} {l : List Char}
    (h : c ∈ pyReplaceChar a b l) : c = b ∨ (c ∈ l ∧ c ≠ a) := by
  rcases List.mem_map.mp h with ⟨d, hd, hdc⟩
  by_cases hda : d = a
  · subst hda; simp only [if_pos rfl] at hdc; exact Or.inl hdc.symm
  · rw [if_neg hda] at hdc; subst hdc; exact Or.inr ⟨hd, hda⟩

theorem pyReplaceChar_eq_self {a b : Char} {l : List Char}
    (h : ∀ c ∈ l, c ≠ a) : pyReplaceChar a b l = l := by
  induction l with
  | nil => rfl
  | cons x xs ih =>
    have hx : x ≠ a := h x (List.mem_cons_self x xs)
    show (if x = a then b else x) :: pyReplaceChar a b xs = x :: xs
    rw [if_neg hx, ih (fun c hc => h c (List.mem_cons_of_mem x hc))]

theorem dropWhile_eq_self_of {p : Char → Bool} {l : List Char}
    (h : ∀ c ∈ l, p c = false) : l.dropWhile p = l := by
  cases l with
  | nil => rfl
  | cons x xs => simp [List.dropWhile_cons, h x (List.mem_cons_self x xs)]

theorem pyStrip_eq_self {l : List Char} (h : ∀ c ∈ l, c.isWhitespace = false) :
    pyStrip l = l := by
  unfold pyStrip
  rw [dropWhile_eq_self_of h,
    dropWhile_eq_self_of (fun c hc => h c (List.mem_reverse.mp hc)),
    List.reverse_reverse]

theorem mem_gvf {c : Char} {s : List Char} (h : c ∈ get_valid_filepath s) :
    keptByRegex c = true ∧ c ≠ ' ' ∧ c ≠ '.' := by
  have hk : keptByRegex c = true := List.of_mem_filter h
  have hm3 : c ∈ pyReplaceChar '.' '_' (pyReplaceChar ' ' '_' (pyStrip s)) :=
    List.mem_of_mem_filter h
  have hnd : c ≠ '.' := by
    rcases mem_pyReplaceChar hm3 with hb | ⟨_, hne⟩
    · subst hb; decide
    · exact hne
  have hns : c ≠ ' ' := by
    rcases mem_pyReplaceChar hm3 with hb | ⟨hm2, _⟩
    · subst hb; decide
    · rcases mem_pyReplaceChar hm2 with hb | ⟨_, hne⟩
      · subst hb; decide
      · exact hne
  exact ⟨hk, hns, hnd⟩

theorem gvf_idempotent (s : List Char) :
    get_valid_filepath (get_valid_filepath s) = get_valid_filepath s := by
  have hmem : ∀ c ∈ get_valid_filepath s, keptByRegex c = true ∧ c ≠ ' ' ∧ c ≠ '.' :=
    fun c hc => mem_gvf hc
  have hs : pyStrip (get_valid_filepath s) = get_valid_filepath s :=
    pyStrip_eq_self (fun c hc => kept_not_whitespace c (hmem c hc).1)
  have h2 : pyReplaceChar ' ' '_' (get_valid_filepath s) = get_valid_filepath s :=
    pyReplaceChar_eq_self (fun c hc => (hmem c hc).2.1)
  have h3 : pyReplaceChar '.' '_' (get_valid_filepath s) = get_valid_filepath s :=
    pyReplaceChar_eq_self (fun c hc => (hmem c hc).2.2)
  show (pyReplaceChar '.' '_'
      (pyReplaceChar ' ' '_' (pyStrip (get_valid_filepath s)))).filter keptByRegex =
    get_valid_filepath s
  rw [hs, h2, h3]
  exact List.filter_eq_self.mpr (fun c hc => (hmem c hc).1)

/-- C10: the filename sanitizer is idempotent and normalizing — for every
string `s`, `get_valid_filepath (get_valid_filepath s) = get_valid_filepath s`,
and the output contains no space, no dot, and no character outside word
characters (letters, digits, underscore) and hyphens. -/
theorem c10_sanitizer_idempotent_normalizing (s : List Char) :
    get_valid_filepath (get_valid_filepath s) = get_valid_filepath s ∧
    (get_valid_filepath s).all
      (fun c => (c != ' ') && (c != '.') && (isWordChar c || c == '-')) = true := by
  refine ⟨gvf_idempotent s, List.all_eq_true.mpr ?_⟩
  intro c hc
  obtain ⟨hk, hns, hnd⟩ := mem_gvf hc
  have hk' : (isWordChar c = true ∨ c = '-') ∨ c = '.' := by
    simpa [keptByRegex] using hk
  have hwd : isWordChar c = true ∨ c = '-' := by
    rcases hk' with h | h
    · exact h
    · exact absurd h hnd
  simp only [Bool.and_eq_true, bne_iff_ne, ne_eq, Bool.or_eq_true, beq_iff_eq]
  exact ⟨⟨hns, hnd⟩, by simpa using hwd⟩

/-- C4 counterexample: two complete metadata records whose
(patient, study, series, instance) field tuples differ — they differ in
the series instance UID — yet `metadata_to_dcm_filepath` produces the
same path for both, refuting injectivity over that tuple. -/
theorem c4_counterexample :
    (m4a.patientID, m4a.studyUID, m4a.seriesUID, m4a.instanceNumber) ≠
      (m4b.patientID, m4b.studyUID, m4b.seriesUID, m4b.instanceNumber) ∧
    metadata_to_dcm_filepath m4a = metadata_to_dcm_filepath m4b := by
  constructor
  · decide
  · decide

/-- C4 (amended): `metadata_to_dcm_filepath` is deterministic, and it is
injective over the four path segments actually built from the metadata
(the sanitized patient, study, series and instance segments); it is not
injective over the raw (patient, study, series, instance) field tuple,
because the series UID and study UID fields never enter the path. -/
theorem c4_buildPath_deterministic_segment_injective (m1 m2 : DcmMeta)
    (h : (patientSeg m1, studySeg m1, seriesSeg m1, instFileSeg m1) ≠
         (patientSeg m2, studySeg m2, seriesSeg m2, instFileSeg m2)) :
    metadata_to_dcm_filepath m1 = metadata_to_dcm_filepath m1 ∧
    metadata_to_dcm_filepath m1 ≠ metadata_to_dcm_filepath m2 := by
  refine ⟨rfl, ?_⟩
  intro he
  apply h
  simp only [metadata_to_dcm_filepath, List.cons.injEq, and_true] at he
  obtain ⟨h1, h2, h3, h4⟩ := he
  rw [h1, h2, h3, h4]

/-- C4 witness: the amended theorem applied to two concrete records that
differ in the instance segment. -/
theorem c4_buildPath_witness :
    metadata_to_dcm_filepath m4a = metadata_to_dcm_filepath m4a ∧
    metadata_to_dcm_filepath m4a ≠ metadata_to_dcm_filepath m4c :=
  c4_buildPath_deterministic_segment_injective m4a m4c (by decide)

theorem drop_until_eq_dropWhile {α : Type} (p : α → Bool) (l : List α) :
    drop_until p l = (l.dropWhile (fun x => !(p x))).drop 1 := by
  induction l with
  | nil => rfl
  | cons x xs ih =>
    by_cases hx : p x = true
    · simp [drop_until, List.dropWhile_cons, hx]
    · have hx' : p x = false := by simpa using hx
      simp [drop_until, List.dropWhile_cons, hx', ih]

theorem get_series_aux_true (ls : List (List Char)) :
    get_series_aux true ls =
      (ls.map remove_trailing_n).filter (fun x => x != sentinelLine) := by
  induction ls with
  | nil => rfl
  | cons l ls ih =>
    by_cases hl : remove_trailing_n l = sentinelLine
    · simp [get_series_aux, hl, ih]
    · simp [get_series_aux, hl, ih]

theorem get_series_aux_false (ls : List (List Char)) :
    get_series_aux false ls =
      (drop_until (fun x => x == sentinelLine) (ls.map remove_trailing_n)).filter
        (fun x => x != sentinelLine) := by
  induction ls with
  | nil => rfl
  | cons l ls ih =>
    by_cases hl : remove_trailing_n l = sentinelLine
    · simp [get_series_aux, hl, drop_until, get_series_aux_true]
    · simp [get_series_aux, hl, drop_until, ih]

theorem not_mem_after_first {α : Type} [BEq α] [LawfulBEq α] (k : α) (l : List α)
    (h : l.count k ≤ 1) : k ∉ (l.dropWhile (fun x => x != k)).drop 1 := by
  induction l with
  | nil => simp
  | cons x xs ih =>
    by_cases hx : x = k
    · subst hx
      have hc : xs.count x = 0 := by
        have hcc := List.count_cons_self x xs
        omega
      simp only [List.dropWhile_cons, bne_self_eq_false, Bool.false_eq_true,
        if_false, List.drop_succ_cons, List.drop_zero]
      exact (List.count_eq_zero.mp hc)
    · have hcount : xs.count k ≤ 1 := by
        rw [List.count_cons] at h
        omega
      simpa [List.dropWhile_cons, bne_iff_ne, hx] using ih hcount

/-- C8 (amended): the pipeline parser (`drop_until` over the
newline-stripped line stream) yields exactly the lines strictly after the
first occurrence of the sentinel (empty when the sentinel is absent);
`get_series_to_dl` yields those same lines except that every later line
equal to the sentinel is omitted (it re-sets the `start` flag instead of
being yielded); consequently the two parsers agree on every manifest in
which the sentinel line occurs at most once, but not in general. -/
theorem c8_manifest_parsers (lines : List (List Char)) :
    pipeline_series_ids lines = linesAfterSentinel lines ∧
    get_series_to_dl lines =
      (linesAfterSentinel lines).filter (fun x => x != sentinelLine) ∧
    ((lines.map remove_trailing_n).count sentinelLine ≤ 1 →
      get_series_to_dl lines = pipeline_series_ids lines) := by
  have h1 : pipeline_series_ids lines = linesAfterSentinel lines := by
    unfold pipeline_series_ids linesAfterSentinel
    rw [drop_until_eq_dropWhile]
    rfl
  have h2 : get_series_to_dl lines =
      (linesAfterSentinel lines).filter (fun x => x != sentinelLine) := by
    have h2' : get_series_to_dl lines =
        (pipeline_series_ids lines).filter (fun x => x != sentinelLine) :=
      get_series_aux_false lines
    rw [h2', h1]
  refine ⟨h1, h2, ?_⟩
  intro hcount
  have hnot : sentinelLine ∉ linesAfterSentinel lines := by
    unfold linesAfterSentinel
    exact not_mem_after_first sentinelLine (lines.map remove_trailing_n) hcount
  rw [h2, h1]
  exact List.filter_eq_self.mpr
    (fun a ha => by
      have : a ≠ sentinelLine := fun he => hnot (he ▸ ha)
      simpa [bne_iff_ne] using this)

/-- C8 counterexample: on a manifest in which the sentinel line occurs
twice, `get_series_to_dl` omits the second sentinel line while `drop_until`
yields every line after the first occurrence, so the two parser
implementations disagree and `get_series_to_dl` does not equal the
lines strictly after the first sentinel. -/
theorem c8_counterexample :
    get_series_to_dl manifestTwoSentinels ≠ pipeline_series_ids manifestTwoSentinels ∧
    pipeline_series_ids manifestTwoSentinels =
      ["A".toList, "ListOfSeriesToDownload=".toList, "B".toList] ∧
    get_series_to_dl manifestTwoSentinels = ["A".toList, "B".toList] := by
  refine ⟨by decide, by decide, by decide⟩

/-- C8 witness: on a manifest with a single sentinel occurrence the two
parsers agree, by the amended theorem. -/
theorem c8_witness :
    get_series_to_dl manifestPlain = pipeline_series_ids manifestPlain :=
  (c8_manifest_parsers manifestPlain).2.2 (by decide)

/-- C9: running `mkdir_safe` on a path that exists as an empty directory
succeeds and returns the filesystem state unchanged (idempotent
create-if-absent); `ensure` on a path whose parent already exists likewise
changes nothing; and `mkdir_safe` raises `DirectoryNotEmptyError` exactly
when the path exists as a non-empty directory (a missing parent gives
`FileNotFoundError`, an existing file gives `NotADirectoryError` from
`iterdir`, never `DirectoryNotEmptyError`). -/
theorem c9_mkdir_safe_idempotent (fs : Fs) (p : FsPath) :
    (fs p = Entry.emptyDir → mkdir_safe fs p = Except.ok (p, fs)) ∧
    (fs p.dropLast = Entry.nonEmptyDir → ensure fs p = Except.ok (p, fs)) ∧
    (mkdir_safe fs p = Except.error FsError.directoryNotEmpty ↔ fs p = Entry.nonEmptyDir) := by
  refine ⟨?_, ?_, ?_⟩
  · intro h
    simp [mkdir_safe, mkdirRaw, is_empty, mkdirExistOk, h]
  · intro h
    unfold ensure
    rw [mkdirParents]
    simp [h]
  · constructor
    · intro h
      cases he : fs p with
      | nonEmptyDir => rfl
      | absent =>
        rw [mkdir_safe, mkdirRaw] at h
        simp only [he] at h
        cases hpar : fs p.dropLast <;> simp [hpar] at h
      | emptyDir => simp [mkdir_safe, mkdirRaw, is_empty, mkdirExistOk, he] at h
      | file => simp [mkdir_safe, mkdirRaw, is_empty, he] at h
    · intro h
      simp [mkdir_safe, mkdirRaw, is_empty, h]

/-- C9 witness: `mkdir_safe` and `ensure` on the existing empty directory
`out` of the concrete filesystem succeed and leave the state untouched. -/
theorem c9_mkdir_safe_witness :
    mkdir_safe fs9 ["out"] = Except.ok (["out"], fs9) ∧
    ensure fs9 ["out"] = Except.ok (["out"], fs9) :=
  ⟨(c9_mkdir_safe_idempotent fs9 ["out"]).1 (by simp [fs9]),
    (c9_mkdir_safe_idempotent fs9 ["out"]).2.1 (by simp [fs9])⟩

/-- C3 counterexample: on a response declaring payload type `OTHER`, the
fetch fails with the identifier-carrying error and writes no bytes, but
the temporary blob allocated at the start of the call is still allocated
after the failure (the list of live temporary blobs is not empty). -/
theorem c3_counterexample :
    (tcia_downloader "S1" respOther).1 = Except.error (DlError.invalidSeries "S1") ∧
    (tcia_downloader "S1" respOther).2 = [⟨[]⟩] ∧
    (tcia_downloader "S1" respOther).2 ≠ [] := by
  refine ⟨rfl, rfl, by decide⟩

/-- C3 (amended): for every fetch whose 2xx response declares a payload
type other than `"ZIP"`, the call fails with the `ValueError` carrying the
series identifier and writes no bytes — but exactly one temporary blob,
still empty, remains allocated after the failure (the temporary file is
created before the type check and never released on the error path). -/
theorem c3_fetch_type_mismatch (seriesID : String) (r : TciaResponse)
    (hs : r.statusOk = true) (ht : r.declaredType ≠ "ZIP") :
    (tcia_downloader seriesID r).1 = Except.error (DlError.invalidSeries seriesID) ∧
    (tcia_downloader seriesID r).2 = [⟨[]⟩] := by
  simp [tcia_downloader, hs, ht]

/-- C3 witness: the amended theorem at the concrete `OTHER` response. -/
theorem c3_fetch_witness :
    (tcia_downloader "S1" respOther).1 = Except.error (DlError.invalidSeries "S1") ∧
    (tcia_downloader "S1" respOther).2 = [⟨[]⟩] :=
  c3_fetch_type_mismatch "S1" respOther (by decide) (by decide)

/-- C5 counterexample: with the destination of `m5a` already occupied, running
the classification over a directory holding `m5a` and `m5b` stops at the
first collision: the run aborts (the collision propagates), and the
remaining file `m5b` — whose own destination was free — is never placed. -/
theorem c5_counterexample :
    classify_and_convert_dcm base5 st5 [[m5a, m5b]] =
      (st5, some (base5 ++ metadata_to_dcm_filepath m5a)) ∧
    base5 ++ metadata_to_dcm_filepath m5b ∉ st5 ∧
    m5a ≠ m5b := by
  refine ⟨by decide, by decide, by decide⟩

/-- C5 (amended): a placement collision is NOT local to the one file being
placed — `classify_and_convert_dcm` catches nothing, so the first
collision aborts the whole run: whenever the first file of the first
directory collides, the returned state is unchanged and no remaining file
of that directory nor any remaining series is processed. -/
theorem c5_collision_aborts_run (st : DestFs) (base : DestPath) (m1 : DcmMeta)
    (ms : List DcmMeta) (dirs : List (List DcmMeta))
    (h : base ++ metadata_to_dcm_filepath m1 ∈ st) :
    classify_and_convert_dcm base st ((m1 :: ms) :: dirs) =
      (st, some (base ++ metadata_to_dcm_filepath m1)) := by
  simp [classify_and_convert_dcm, mv_dcm_loop, mv_dcm, h]

/-- C5 witness: the amended theorem at the concrete scenario. -/
theorem c5_collision_witness :
    classify_and_convert_dcm base5 st5 [[m5a, m5b]] =
      (st5, some (base5 ++ metadata_to_dcm_filepath m5a)) :=
  c5_collision_aborts_run st5 base5 m5a [m5b] [] (by decide)

/-- C6 counterexample: for an existing file whose header cannot be read
(any file that is not valid DICOM), `extract_dcm_metadata` returns `None`
— a non-mapping — instead of the complete mapping the claim promises for
every existing path. -/
theorem c6_counterexample :
    extract_dcm_metadata true "not_a_dicom.txt" false (fun _ => none) =
      Except.ok none := rfl

/-- C6 (amended): for every existing file path whose header CAN be read,
the returned value is a complete mapping: each of the 26 recognized tags
is present, holding the value from the header when the header has the tag and
`"Unknown"` otherwise, plus the added `file` entry holding the source
path; but when the header read fails the function instead returns `None`
(the `RuntimeError` is caught and logged). -/
theorem c6_reader_complete_mapping (filename : String)
    (header : String → Option String) :
    ∃ d, extract_dcm_metadata true filename true header = Except.ok (some d) ∧
      (dicomTagKeys.all
        (fun tag => d tag == some ((header tag).getD "Unknown")) = true) ∧
      d "file" = some filename := by
  refine ⟨_, rfl, ?_, ?_⟩
  · refine List.all_eq_true.mpr ?_
    intro tag htag
    have hfile : tag ≠ "file" := by
      intro he
      subst he
      revert htag
      decide
    have hmem : tag ∈ dicomTagKeys := htag
    simp only [hfile, if_false, hmem, if_true, beq_iff_eq]
    cases hh : header tag with
    | some v => simp [Option.orElse]
    | none => simp [Option.orElse, default_elements_machine, hmem]
  · simp [Option.orElse]

/-- C1: evaluating `group_by_correct_volumes` on a series whose two
candidate orderings disagree — (acquisition, instance) gives [A, B],
z-location gives [B, A]. The code sorts BOTH candidate lists with the
(acquisition, instance) key, its discrepancy check compares a list with
itself and stays silent, and it returns `None`: contrary to the claim (and
to its own docstring), it neither adopts the z-location ordering nor emits
a discrepancy message. -/
theorem c1_reconciler_never_uses_zloc :
    group_by_correct_volumes [slice1, slice2] =
      { by_inst_nb := [slice1, slice2]
        by_zloc := [slice1, slice2]
        discrepancyLogged := false
        returned := none } ∧
    stableSortBy leZloc [slice1, slice2] = [slice2, slice1] ∧
    (group_by_correct_volumes [slice1, slice2]).by_zloc ≠
      stableSortBy leZloc [slice1, slice2] := by
  refine ⟨by decide, by decide, by decide⟩

/-- C2: a header whose `ImagePositionPatient` field is present (last
coordinate 42) flows through `dicom_dataset_to_flat_dict` with the field
itself stored, yet NO `z_location` entry is added: the guard
`hasattr(dicom_dict, "ImagePositionPatient")` interrogates the plain dict
object for an attribute (always `False`) instead of asking the header for
the field, so the entry promised by the claim (and by the very comment in
the source) is never created. -/
theorem c2_zlocation_never_added :
    (dicom_dataset_to_flat_dict headerWithIpp).lookup "ImagePositionPatient" =
      some (DcmValue.numListV [0, 0, 42]) ∧
    (dicom_dataset_to_flat_dict headerWithIpp).lookup "z_location" = none ∧
    ippLastCoord headerWithIpp = 42 := by
  refine ⟨by decide, by decide, by decide⟩

/-! ### Lemmas about grouping -/

theorem map_eq_self_of {α : Type} {f : α → α} {l : List α}
    (h : ∀ a ∈ l, f a = a) : l.map f = l := by
  induction l with
  | nil => rfl
  | cons x xs ih =>
    rw [List.map_cons, h x (List.mem_cons_self x xs),
      ih (fun a ha => h a (List.mem_cons_of_mem x ha))]

theorem foldl_extend_eq_join {α β : Type} (p : α × List β → Bool) :
    ∀ (gs : List (α × List β)) (acc : List β),
      gs.foldl (fun a g => if p g then a else a ++ g.2) acc =
        acc ++ ((gs.filter (fun g => !(p g))).map Prod.snd).join := by
  intro gs
  induction gs with
  | nil => intro acc; simp
  | cons g gs ih =>
    intro acc
    by_cases hg : p g = true
    · simp [List.foldl_cons, hg, ih]
    · have hg2 : p g = false := by simpa using hg
      simp [List.foldl_cons, hg2, ih, List.append_assoc]

theorem addToSeries_new (acc : List (Option String × List MetaD)) (m : MetaD)
    (h : ∀ g ∈ acc, g.1 ≠ seriesKey m) :
    addToSeries acc m = acc ++ [(seriesKey m, [m])] := by
  unfold addToSeries
  rw [if_neg]
  simp only [List.any_eq_true, decide_eq_true_eq, not_exists, not_and]
  intro g hg
  exact fun he => absurd he (h g hg)

theorem foldl_addToSeries_members (k : Option String)
    (acc : List (Option String × List MetaD)) (hacc : ∀ g ∈ acc, g.1 ≠ k) :
    ∀ (ms done : List MetaD), (∀ m ∈ ms, seriesKey m = k) →
      List.foldl addToSeries (acc ++ [(k, done)]) ms = acc ++ [(k, done ++ ms)] := by
  intro ms
  induction ms with
  | nil => intro done _; simp
  | cons m ms ih =>
    intro done hkeys
    have hk : seriesKey m = k := hkeys m (List.mem_cons_self m ms)
    have hmap : acc.map (fun g => if g.1 = k then (g.1, g.2 ++ [m]) else g) = acc :=
      map_eq_self_of (fun g hg => by rw [if_neg (hacc g hg)])
    have hstep : addToSeries (acc ++ [(k, done)]) m = acc ++ [(k, done ++ [m])] := by
      unfold addToSeries
      rw [hk]
      simp [hmap]
    rw [List.foldl_cons, hstep,
      ih (done ++ [m]) (fun x hx => hkeys x (List.mem_cons_of_mem m hx)),
      List.append_assoc]
    rfl

theorem foldl_addToSeries_groups :
    ∀ (gs acc : List (Option String × List MetaD)),
      (gs.map Prod.fst).Nodup →
      (∀ g ∈ gs, ∀ m ∈ g.2, seriesKey m = g.1) →
      (∀ g ∈ gs, g.2 ≠ []) →
      (∀ g ∈ gs, ∀ a ∈ acc, a.1 ≠ g.1) →
      List.foldl addToSeries acc ((gs.map Prod.snd).join) = acc ++ gs := by
  intro gs
  induction gs with
  | nil => intro acc _ _ _ _; simp
  | cons g gs ih =>
    intro acc hnd hkeys hne hacc
    obtain ⟨k, mem⟩ := g
    cases mem with
    | nil => exact absurd rfl (hne (k, []) (List.mem_cons_self _ _))
    | cons m more =>
      have hkm : seriesKey m = k :=
        hkeys (k, m :: more) (List.mem_cons_self _ _) m (List.mem_cons_self m more)
      have hmore : ∀ x ∈ more, seriesKey x = k := fun x hx =>
        hkeys (k, m :: more) (List.mem_cons_self _ _) x (List.mem_cons_of_mem m hx)
      have hacck : ∀ a ∈ acc, a.1 ≠ k :=
        fun a ha => hacc (k, m :: more) (List.mem_cons_self _ _) a ha
      have hfirst : addToSeries acc m = acc ++ [(k, [m])] := by
        rw [addToSeries_new acc m (fun g2 hg2 => by rw [hkm]; exact hacck g2 hg2), hkm]
      have hinner : List.foldl addToSeries acc (m :: more) = acc ++ [(k, m :: more)] := by
        rw [List.foldl_cons, hfirst]
        exact foldl_addToSeries_members k acc hacck more [m] hmore
      have hnd2 : (k :: gs.map Prod.fst).Nodup := by
        simpa using hnd
      have hknotin : k ∉ gs.map Prod.fst := (List.nodup_cons.mp hnd2).1
      have hacc2 : ∀ g2 ∈ gs, ∀ a ∈ acc ++ [(k, m :: more)], a.1 ≠ g2.1 := by
        intro g2 hg2 a ha
        rcases List.mem_append.mp ha with hin | hin
        · exact hacc g2 (List.mem_cons_of_mem _ hg2) a hin
        · have ha2 : a = (k, m :: more) := by simpa using hin
          subst ha2
          intro he
          apply hknotin
          have hmm : g2.1 ∈ gs.map Prod.fst := List.mem_map_of_mem Prod.fst hg2
          rw [← he] at hmm
          simpa using hmm
      show List.foldl addToSeries acc ((m :: more) ++ (gs.map Prod.snd).join) =
        acc ++ ((k, m :: more) :: gs)
      rw [List.foldl_append, hinner,
        ih (acc ++ [(k, m :: more)]) (List.nodup_cons.mp hnd2).2
          (fun g2 hg2 => hkeys g2 (List.mem_cons_of_mem _ hg2))
          (fun g2 hg2 => hne g2 (List.mem_cons_of_mem _ hg2)) hacc2,
        List.append_assoc]
      rfl

theorem addToSeries_good {acc : List (Option String × List MetaD)}
    (h : goodGroups acc) (m : MetaD) : goodGroups (addToSeries acc m) := by
  obtain ⟨hnd, hkeys, hne⟩ := h
  unfold addToSeries
  by_cases hany : acc.any (fun g => g.1 = seriesKey m) = true
  · rw [if_pos hany]
    refine ⟨?_, ?_, ?_⟩
    · have hfst : (acc.map (fun g => if g.1 = seriesKey m then (g.1, g.2 ++ [m]) else g)).map
          Prod.fst = acc.map Prod.fst := by
        rw [List.map_map]
        refine List.map_congr_left ?_
        intro g _
        by_cases hg : g.1 = seriesKey m <;> simp [hg]
      rw [hfst]
      exact hnd
    · intro g2 hg2 x hx
      rcases List.mem_map.mp hg2 with ⟨g, hg, hfg⟩
      by_cases hg1 : g.1 = seriesKey m
      · rw [if_pos hg1] at hfg
        subst hfg
        rcases List.mem_append.mp hx with hin | hin
        · exact hkeys g hg x hin
        · have : x = m := by simpa using hin
          subst this
          exact hg1.symm
      · rw [if_neg hg1] at hfg
        subst hfg
        exact hkeys g hg x hx
    · intro g2 hg2
      rcases List.mem_map.mp hg2 with ⟨g, hg, hfg⟩
      by_cases hg1 : g.1 = seriesKey m
      · rw [if_pos hg1] at hfg
        subst hfg
        simp
      · rw [if_neg hg1] at hfg
        subst hfg
        exact hne g hg
  · rw [if_neg hany]
    have hnotin : ∀ g ∈ acc, g.1 ≠ seriesKey m := by
      intro g hg
      have := List.any_eq_false.mp (Bool.eq_false_iff.mpr hany) g hg
      simpa using this
    refine ⟨?_, ?_, ?_⟩
    · rw [List.map_append]
      rw [List.nodup_append]
      refine ⟨hnd, List.nodup_singleton _, ?_⟩
      intro a ha hb
      have hb2 : a = seriesKey m := by simpa using hb
      rcases List.mem_map.mp ha with ⟨g, hg, hfg⟩
      exact hnotin g hg (hfg.trans hb2)
    · intro g2 hg2 x hx
      rcases List.mem_append.mp hg2 with hin | hin
      · exact hkeys g2 hin x hx
      · have : g2 = (seriesKey m, [m]) := by simpa using hin
        subst this
        have : x = m := by simpa using hx
        subst this
        rfl
    · intro g2 hg2
      rcases List.mem_append.mp hg2 with hin | hin
      · exact hne g2 hin
      · have : g2 = (seriesKey m, [m]) := by simpa using hin
        subst this
        simp

theorem merge_series_good (l : List MetaD) : goodGroups (merge_series l) := by
  have hgen : ∀ (l2 : List MetaD) (acc : List (Option String × List MetaD)),
      goodGroups acc → goodGroups (List.foldl addToSeries acc l2) := by
    intro l2
    induction l2 with
    | nil => intro acc h; exact h
    | cons m ms ih =>
      intro acc h
      exact ih (addToSeries acc m) (addToSeries_good h m)
  exact hgen l [] ⟨List.nodup_nil, fun g hg => absurd hg (List.not_mem_nil g),
    fun g hg => absurd hg (List.not_mem_nil g)⟩

/-- C7: in `extract_dcm_metadata_to_csv` the slice-level filter acts on
individual records before grouping and the series-level filter only ever
removes whole groups after grouping: for every input and every choice of
the two predicates, (i) the produced flat list is exactly the
concatenation of those groups of the slice-filtered input that survive
the small-series test, and (ii) regrouping that output reproduces those
surviving groups exactly — same members, same order — so no group loses
individual members at the series-filter stage. -/
theorem c7_slice_filter_before_grouping (keep_slice : MetaD → Bool)
    (small_series : List MetaD → Bool) (filter_slice filter_series : Bool)
    (l : List MetaD) :
    extract_dcm_metadata_to_csv keep_slice small_series filter_slice filter_series l =
      (((merge_series (if filter_slice then l.filter keep_slice else l)).filter
          (fun g => !(filter_series && small_series g.2))).map Prod.snd).join ∧
    merge_series
        (extract_dcm_metadata_to_csv keep_slice small_series filter_slice filter_series l) =
      (merge_series (if filter_slice then l.filter keep_slice else l)).filter
        (fun g => !(filter_series && small_series g.2)) := by
  have h1 : extract_dcm_metadata_to_csv keep_slice small_series filter_slice filter_series l =
      (((merge_series (if filter_slice then l.filter keep_slice else l)).filter
          (fun g => !(filter_series && small_series g.2))).map Prod.snd).join := by
    unfold extract_dcm_metadata_to_csv
    rw [foldl_extend_eq_join (fun g => filter_series && small_series g.2)]
    rfl
  refine ⟨h1, ?_⟩
  rw [h1]
  obtain ⟨hnd, hkeys, hne⟩ :=
    merge_series_good (if filter_slice then l.filter keep_slice else l)
  have hsub : ((merge_series (if filter_slice then l.filter keep_slice else l)).filter
      (fun g => !(filter_series && small_series g.2))).Sublist
        (merge_series (if filter_slice then l.filter keep_slice else l)) :=
    List.filter_sublist _
  have hmemsub : ∀ g ∈ (merge_series (if filter_slice then l.filter keep_slice else l)).filter
      (fun g => !(filter_series && small_series g.2)),
        g ∈ merge_series (if filter_slice then l.filter keep_slice else l) :=
    fun g hg => List.mem_of_mem_filter hg
  have := foldl_addToSeries_groups
    ((merge_series (if filter_slice then l.filter keep_slice else l)).filter
      (fun g => !(filter_series && small_series g.2))) []
    ((hsub.map Prod.fst).nodup hnd)
    (fun g hg => hkeys g (hmemsub g hg))
    (fun g hg => hne g (hmemsub g hg))
    (fun g _ a ha => absurd ha (List.not_mem_nil a))
  simpa [merge_series] using this

end Tcia
